import Mathlib

set_option maxHeartbeats 1000000

/-!
Verification of the synchronization engine of `paired-end_barcode_splitter.py`.

The embedding models the mate-2 synchronization loop of
`BarcodeSplitter.run` (lines 177-233 of the script), the helper
`find_prefix` (lines 248-257) and the `try`/`finally` stream-cleanup
discipline (lines 180-233).  A file is a finite list of lines, a line a
list of characters; `readline` on an exhausted file yields the empty
line, exactly as Python's `file.readline` returns `""` at end of file.
-/

abbrev Line := List Char

/-- Whitespace characters recognised by Python 2's `str.split()` and
`str.strip()` on byte strings (`string.whitespace`). -/
def pyIsSpace (c : Char) : Bool :=
  c = ' ' || c = '\t' || c = '\n' || c = '\x0b' || c = '\x0c' || c = '\r'

/-- Python `s.strip()`: remove leading and trailing whitespace. -/
def pyStrip (s : List Char) : List Char :=
  ((s.dropWhile pyIsSpace).reverse.dropWhile pyIsSpace).reverse

/-- Python `s.split()[0]` as a partial function: `none` when `s.split()`
is empty (the script would raise `IndexError`), `some` of the first
whitespace-delimited token otherwise.  Used at lines 202 and 215 of the
script to extract the read name. -/
def firstToken (s : List Char) : Option (List Char) :=
  match s.dropWhile pyIsSpace with
  | [] => none
  | c :: t => some ((c :: t).takeWhile (fun a => !pyIsSpace a))

/-- `file.readline()`: the next line, or the empty line once the stream
is exhausted. -/
def readline : List Line → Line × List Line
  | [] => ([], [])
  | l :: ls => (l, ls)

/-- Four consecutive `readline` calls, as in
`[ f.readline() for j in xrange(4) ]` (lines 192, 196, 217, 230). -/
def read4 (f : List Line) : List Line × List Line :=
  let (l1, f1) := readline f
  let (l2, f2) := readline f1
  let (l3, f3) := readline f2
  let (l4, f4) := readline f3
  ([l1, l2, l3, l4], f4)

/-- The per-barcode state the loop indexes in parallel arrays:
`slots[i]` (the lookahead, four lines of the current mate-1 record),
the unread remainder of `demultiplexed_files_1[i]`, and the lines
written so far to `demultiplexed_files_2[i]`. -/
structure Slot where
  look : List Line
  rest : List Line
  out : List Line
deriving DecidableEq

def dfltSlot : Slot := ⟨[], [], []⟩

/-- The only uncaught exception of the loop body: `IndexError` from
`split()[0]` on a whitespace-only line (lines 202 and 215). -/
inductive RunError where
  | indexError
deriving DecidableEq

/-- Lines 216-218: write the current mate-2 record to slot `s`'s output
and advance the slot's lookahead by four raw (unstripped) `readline`
calls on its mate-1 file. -/
def advanceSlot (s : Slot) (rec2 : List Line) : Slot :=
  ⟨(read4 s.rest).1, (read4 s.rest).2, s.out ++ rec2⟩

/-- Lines 208-221: scan the slots in their fixed order.  A slot whose
lookahead first line is empty (mate-1 file exhausted) is skipped
(line 213).  Otherwise the lookahead's first token is compared with the
mate-2 read name (line 215); `split()[0]` on a whitespace-only line is
the `IndexError`.  On the first match the record is written, the slot
advanced, and scanning stops (`break`, line 221). -/
def scanSlots (key : Line) (rec2 : List Line) : List Slot → Except RunError (Option (List Slot))
  | [] => Except.ok none
  | s :: ss =>
    if s.look.getD 0 [] = [] then
      (scanSlots key rec2 ss).map (fun o => o.map (fun ss' => s :: ss'))
    else
      match firstToken (s.look.getD 0 []) with
      | none => Except.error RunError.indexError
      | some t =>
        if t = key then Except.ok (some (advanceSlot s rec2 :: ss))
        else (scanSlots key rec2 ss).map (fun o => o.map (fun ss' => s :: ss'))

/-- `while all(read_2_lines)` (line 199): all four lines truthy. -/
def m2Check (rec2 : List Line) : Bool :=
  rec2.all (fun l => !l.isEmpty)

/-- The diagnostic written to stderr at lines 225-226:
`"mate missing in file_2: {read_name}\n"`. -/
def diagMsg (key : Line) : Line :=
  ['m', 'a', 't', 'e', ' ', 'm', 'i', 's', 's', 'i', 'n', 'g', ' ', 'i', 'n',
   ' ', 'f', 'i', 'l', 'e', '_', '2', ':', ' '] ++ key ++ ['\n']

/-- Final state of a run of the loop: the slots, the two counters of
`self.log` (`"demultiplexed"` and `"not matched"`) and the diagnostics
written to stderr. -/
structure SyncResult where
  slots : List Slot
  matched : Nat
  unmatched : Nat
  diags : List Line
deriving DecidableEq

/-- The `while` loop of lines 199-230, with an explicit fuel argument to
make the recursion structural.  One unit of fuel is spent per iteration;
`runLoop` below supplies provably sufficient fuel, and
`runLoopF_eq_runLoop` shows the result does not depend on the exact
amount. -/
def runLoopF : Nat → List Slot → List Line → List Line → Nat → Nat → List Line →
    Except RunError SyncResult
  | 0, slots, _, _, m, u, d => Except.ok ⟨slots, m, u, d⟩
  | fuel + 1, slots, f2, rec2, m, u, d =>
    if m2Check rec2 then
      match firstToken (rec2.getD 0 []) with
      | none => Except.error RunError.indexError
      | some key =>
        match scanSlots key rec2 slots with
        | Except.error e => Except.error e
        | Except.ok none =>
          runLoopF fuel slots (read4 f2).2 (read4 f2).1 m (u + 1) (d ++ [diagMsg key])
        | Except.ok (some slots') =>
          runLoopF fuel slots' (read4 f2).2 (read4 f2).1 (m + 1) u d
    else Except.ok ⟨slots, m, u, d⟩

/-- The loop with its canonical fuel: each iteration consumes at least
one line of `f2` (or terminates at the next check), so `f2.length + 1`
always suffices. -/
def runLoop (slots : List Slot) (f2 rec2 : List Line) (m u : Nat) (d : List Line) :
    Except RunError SyncResult :=
  runLoopF (f2.length + 1) slots f2 rec2 m u d

/-- Lines 192-193: prime a slot's lookahead with four stripped lines of
its mate-1 file. -/
def initSlot (file : List Line) : Slot :=
  ⟨(read4 file).1.map pyStrip, (read4 file).2, []⟩

/-- Lines 192-230 as a whole: prime every slot, read the first four
mate-2 lines, then run the loop with fresh counters. -/
def runSync (files1 : List (List Line)) (f2 : List Line) : Except RunError SyncResult :=
  runLoop (files1.map initSlot) (read4 f2).2 (read4 f2).1 0 0 []

deriving instance DecidableEq for Except

lemma read4_snd (f : List Line) : (read4 f).2 = f.drop 4 := by
  rcases f with _ | ⟨a, _ | ⟨b, _ | ⟨c, _ | ⟨e, t⟩⟩⟩⟩ <;> rfl

lemma runLoopF_empties (fuel : Nat) (slots : List Slot) (f2 : List Line) (m u : Nat)
    (d : List Line) :
    runLoopF fuel slots f2 [[], [], [], []] m u d = Except.ok ⟨slots, m, u, d⟩ := by
  cases fuel <;> rfl

lemma runLoopF_eq_runLoop : ∀ (fuel : Nat) (f2 : List Line) (slots : List Slot)
    (rec2 : List Line) (m u : Nat) (d : List Line), f2.length < fuel →
    runLoopF fuel slots f2 rec2 m u d = runLoop slots f2 rec2 m u d := by
  intro fuel
  induction fuel using Nat.strong_induction_on with
  | _ fuel ih =>
    intro f2 slots rec2 m u d hlt
    obtain ⟨k, rfl⟩ : ∃ k, fuel = k + 1 := ⟨fuel - 1, by omega⟩
    have hrec : ∀ fl, f2.length ≤ fl → fl < k + 1 → ∀ slots2 m2 u2 d2,
        runLoopF fl slots2 (read4 f2).2 (read4 f2).1 m2 u2 d2
          = runLoop slots2 (read4 f2).2 (read4 f2).1 m2 u2 d2 := by
      intro fl hfl hfk slots2 m2 u2 d2
      rcases f2 with _ | ⟨a, t⟩
      · show runLoopF fl slots2 [] [[], [], [], []] m2 u2 d2
            = runLoop slots2 [] [[], [], [], []] m2 u2 d2
        rw [runLoopF_empties]
        unfold runLoop
        rw [runLoopF_empties]
      · have hlen : (read4 (a :: t)).2.length < fl := by
          rw [read4_snd]
          simp only [List.length_drop, List.length_cons] at hfl ⊢
          omega
        exact ih fl (by omega) _ _ _ _ _ _ hlen
    conv_rhs => unfold runLoop
    simp only [runLoopF]
    have h1 : ∀ slots2 m2 u2 d2,
        runLoopF k slots2 (read4 f2).2 (read4 f2).1 m2 u2 d2
          = runLoopF f2.length slots2 (read4 f2).2 (read4 f2).1 m2 u2 d2 := by
      intro slots2 m2 u2 d2
      rw [hrec k (by omega) (by omega), hrec f2.length (by omega) (by omega)]
    simp only [h1]

lemma runLoop_eq (slots : List Slot) (f2 rec2 : List Line) (m u : Nat) (d : List Line) :
    runLoop slots f2 rec2 m u d =
      if m2Check rec2 then
        match firstToken (rec2.getD 0 []) with
        | none => Except.error RunError.indexError
        | some key =>
          match scanSlots key rec2 slots with
          | Except.error e => Except.error e
          | Except.ok none =>
            runLoop slots (read4 f2).2 (read4 f2).1 m (u + 1) (d ++ [diagMsg key])
          | Except.ok (some slots') =>
            runLoop slots' (read4 f2).2 (read4 f2).1 (m + 1) u d
      else Except.ok ⟨slots, m, u, d⟩ := by
  have hrec : ∀ slots2 m2 u2 d2,
      runLoopF f2.length slots2 (read4 f2).2 (read4 f2).1 m2 u2 d2
        = runLoop slots2 (read4 f2).2 (read4 f2).1 m2 u2 d2 := by
    intro slots2 m2 u2 d2
    rcases f2 with _ | ⟨a, t⟩
    · show runLoopF 0 slots2 [] [[], [], [], []] m2 u2 d2
          = runLoop slots2 [] [[], [], [], []] m2 u2 d2
      rw [runLoopF_empties]
      unfold runLoop
      rw [runLoopF_empties]
    · apply runLoopF_eq_runLoop
      rw [read4_snd]
      simp only [List.length_drop, List.length_cons]
      omega
  conv_lhs => unfold runLoop
  simp only [runLoopF]
  simp only [hrec]

lemma runLoop_stop {rec2 : List Line} (slots : List Slot) (f2 : List Line) (m u : Nat)
    (d : List Line) (hchk : m2Check rec2 = false) :
    runLoop slots f2 rec2 m u d = Except.ok ⟨slots, m, u, d⟩ := by
  rw [runLoop_eq]
  simp [hchk]

lemma runLoop_keyErr {rec2 : List Line} (slots : List Slot) (f2 : List Line) (m u : Nat)
    (d : List Line) (hchk : m2Check rec2 = true)
    (htok : firstToken (rec2.getD 0 []) = none) :
    runLoop slots f2 rec2 m u d = Except.error RunError.indexError := by
  rw [runLoop_eq, if_pos hchk]
  simp only [htok]

lemma runLoop_scanErr {rec2 : List Line} {key : List Char} {slots : List Slot} {e : RunError}
    (f2 : List Line) (m u : Nat) (d : List Line) (hchk : m2Check rec2 = true)
    (htok : firstToken (rec2.getD 0 []) = some key)
    (hscan : scanSlots key rec2 slots = Except.error e) :
    runLoop slots f2 rec2 m u d = Except.error e := by
  rw [runLoop_eq, if_pos hchk]
  simp only [htok, hscan]

lemma runLoop_matchStep {rec2 : List Line} {key : List Char} {slots slots' : List Slot}
    (f2 : List Line) (m u : Nat) (d : List Line) (hchk : m2Check rec2 = true)
    (htok : firstToken (rec2.getD 0 []) = some key)
    (hscan : scanSlots key rec2 slots = Except.ok (some slots')) :
    runLoop slots f2 rec2 m u d
      = runLoop slots' (read4 f2).2 (read4 f2).1 (m + 1) u d := by
  rw [runLoop_eq, if_pos hchk]
  simp only [htok, hscan]

lemma runLoop_missStep {rec2 : List Line} {key : List Char} {slots : List Slot}
    (f2 : List Line) (m u : Nat) (d : List Line) (hchk : m2Check rec2 = true)
    (htok : firstToken (rec2.getD 0 []) = some key)
    (hscan : scanSlots key rec2 slots = Except.ok none) :
    runLoop slots f2 rec2 m u d
      = runLoop slots (read4 f2).2 (read4 f2).1 m (u + 1) (d ++ [diagMsg key]) := by
  rw [runLoop_eq, if_pos hchk]
  simp only [htok, hscan]

/-- A slot that the scan of lines 208-221 passes over for read name
`key`: either its lookahead first line is empty (exhausted mate-1 file,
line 213), or its lookahead token is defined and differs from `key`
(line 215 compares unequal). -/
def slotSkips (s : Slot) (key : Line) : Prop :=
  s.look.getD 0 [] = [] ∨
    ((firstToken (s.look.getD 0 [])).isSome ∧ firstToken (s.look.getD 0 []) ≠ some key)

instance (s : Slot) (key : Line) : Decidable (slotSkips s key) := by
  unfold slotSkips
  infer_instance

lemma firstToken_nil : firstToken [] = none := rfl

lemma getD_set_self {α : Type} (l : List α) (i : Nat) (x d : α) (h : i < l.length) :
    (l.set i x).getD i d = x := by
  induction l generalizing i with
  | nil => simp at h
  | cons a t ihl =>
    cases i with
    | zero => rfl
    | succ j => exact ihl j (by simpa using h)

lemma getD_set_ne {α : Type} (l : List α) (i j : Nat) (x d : α) (h : j ≠ i) :
    (l.set i x).getD j d = l.getD j d := by
  induction l generalizing i j with
  | nil => simp
  | cons a t ihl =>
    cases i with
    | zero =>
      cases j with
      | zero => exact absurd rfl h
      | succ j2 => rfl
    | succ i2 =>
      cases j with
      | zero => rfl
      | succ j2 => exact ihl i2 j2 (by omega)

lemma slotSkips_ne_nil {s : Slot}
    (h : (firstToken (s.look.getD 0 [])).isSome) : s.look.getD 0 [] ≠ [] := by
  intro h0
  rw [h0, firstToken_nil] at h
  simp at h

lemma scanSlots_found : ∀ (slots : List Slot) (i : Nat) (key : Line) (rec2 : List Line),
    i < slots.length →
    (∀ j, j < i → slotSkips (slots.getD j dfltSlot) key) →
    (slots.getD i dfltSlot).look.getD 0 [] ≠ [] →
    firstToken ((slots.getD i dfltSlot).look.getD 0 []) = some key →
    scanSlots key rec2 slots
      = Except.ok (some (slots.set i (advanceSlot (slots.getD i dfltSlot) rec2))) := by
  intro slots
  induction slots with
  | nil => intro i key rec2 h; simp at h
  | cons s ss ihs =>
    intro i key rec2 hi hskip hne htok
    cases i with
    | zero =>
      simp only [List.getD_cons_zero] at hne htok
      unfold scanSlots
      rw [if_neg hne]
      simp only [htok]
      simp
    | succ j =>
      have hs0 := hskip 0 (Nat.succ_pos j)
      simp only [List.getD_cons_zero] at hs0
      have hih := ihs j key rec2 (by simpa using hi)
        (fun j2 hj2 => by simpa using hskip (j2 + 1) (by omega))
        (by simpa using hne) (by simpa using htok)
      unfold scanSlots
      rcases hs0 with h0 | ⟨hs1, hs2⟩
      · rw [if_pos h0, hih]
        rfl
      · obtain ⟨t, ht⟩ := Option.isSome_iff_exists.mp hs1
        have hne2 : t ≠ key := fun hteq => hs2 (by rw [ht, hteq])
        rw [if_neg (slotSkips_ne_nil hs1)]
        simp only [ht]
        rw [if_neg hne2, hih]
        rfl

lemma scanSlots_none : ∀ (slots : List Slot) (key : Line) (rec2 : List Line),
    (∀ j, j < slots.length → slotSkips (slots.getD j dfltSlot) key) →
    scanSlots key rec2 slots = Except.ok none := by
  intro slots
  induction slots with
  | nil => intro key rec2 h; rfl
  | cons s ss ihs =>
    intro key rec2 hskip
    have hs0 := hskip 0 (by simp)
    simp only [List.getD_cons_zero] at hs0
    have hih := ihs key rec2 (fun j2 hj2 => by simpa using hskip (j2 + 1) (by simpa using hj2))
    unfold scanSlots
    rcases hs0 with h0 | ⟨hs1, hs2⟩
    · rw [if_pos h0, hih]
      rfl
    · obtain ⟨t, ht⟩ := Option.isSome_iff_exists.mp hs1
      have hne2 : t ≠ key := fun hteq => hs2 (by rw [ht, hteq])
      rw [if_neg (slotSkips_ne_nil hs1)]
      simp only [ht]
      rw [if_neg hne2, hih]
      rfl

lemma scanSlots_err : ∀ (slots : List Slot) (i : Nat) (key : Line) (rec2 : List Line),
    i < slots.length →
    (∀ j, j < i → slotSkips (slots.getD j dfltSlot) key) →
    (slots.getD i dfltSlot).look.getD 0 [] ≠ [] →
    firstToken ((slots.getD i dfltSlot).look.getD 0 []) = none →
    scanSlots key rec2 slots = Except.error RunError.indexError := by
  intro slots
  induction slots with
  | nil => intro i key rec2 h; simp at h
  | cons s ss ihs =>
    intro i key rec2 hi hskip hne htok
    cases i with
    | zero =>
      simp only [List.getD_cons_zero] at hne htok
      unfold scanSlots
      rw [if_neg hne]
      simp only [htok]
    | succ j =>
      have hs0 := hskip 0 (Nat.succ_pos j)
      simp only [List.getD_cons_zero] at hs0
      have hih := ihs j key rec2 (by simpa using hi)
        (fun j2 hj2 => by simpa using hskip (j2 + 1) (by omega))
        (by simpa using hne) (by simpa using htok)
      unfold scanSlots
      rcases hs0 with h0 | ⟨hs1, hs2⟩
      · rw [if_pos h0, hih]
        rfl
      · obtain ⟨t, ht⟩ := Option.isSome_iff_exists.mp hs1
        have hne2 : t ≠ key := fun hteq => hs2 (by rw [ht, hteq])
        rw [if_neg (slotSkips_ne_nil hs1)]
        simp only [ht]
        rw [if_neg hne2, hih]
        rfl

lemma scanSlots_some_inv : ∀ (slots : List Slot) (slots' : List Slot) (key : Line)
    (rec2 : List Line),
    scanSlots key rec2 slots = Except.ok (some slots') →
    ∃ i, i < slots.length ∧
      (slots.getD i dfltSlot).look.getD 0 [] ≠ [] ∧
      firstToken ((slots.getD i dfltSlot).look.getD 0 []) = some key ∧
      slots' = slots.set i (advanceSlot (slots.getD i dfltSlot) rec2) := by
  intro slots
  induction slots with
  | nil =>
    intro slots' key rec2 h
    exact absurd h (by simp [scanSlots])
  | cons s ss ihs =>
    intro slots' key rec2 h
    unfold scanSlots at h
    by_cases h0 : s.look.getD 0 [] = []
    · rw [if_pos h0] at h
      cases hss : scanSlots key rec2 ss with
      | error e =>
        rw [hss] at h
        exact absurd h (by simp [Except.map])
      | ok o =>
        rw [hss] at h
        cases o with
        | none => exact absurd h (by simp [Except.map])
        | some ss' =>
          obtain ⟨i, hi, hne, htok, hset⟩ := ihs ss' key rec2 hss
          have hcons : s :: ss' = slots' := by
            simp only [Except.map, Option.map, Except.ok.injEq, Option.some.injEq] at h
            exact h
          have hsl : slots' = s :: ss.set i (advanceSlot (ss.getD i dfltSlot) rec2) := by
            rw [← hcons, hset]
          refine ⟨i + 1, by simpa using Nat.succ_lt_succ hi, by simpa using hne,
            by simpa using htok, ?_⟩
          simpa using hsl
    · rw [if_neg h0] at h
      cases htk : firstToken (s.look.getD 0 []) with
      | none =>
        simp only [htk] at h
        exact absurd h (by simp)
      | some t =>
        simp only [htk] at h
        by_cases hteq : t = key
        · rw [if_pos hteq] at h
          refine ⟨0, by simp, by simpa using h0, by rw [List.getD_cons_zero, htk, hteq], ?_⟩
          have hcons : advanceSlot s rec2 :: ss = slots' := by
            simp only [Except.ok.injEq, Option.some.injEq] at h
            exact h
          simpa using hcons.symm
        · rw [if_neg hteq] at h
          cases hss : scanSlots key rec2 ss with
          | error e =>
            rw [hss] at h
            exact absurd h (by simp [Except.map])
          | ok o =>
            rw [hss] at h
            cases o with
            | none => exact absurd h (by simp [Except.map])
            | some ss' =>
              obtain ⟨i, hi, hne, htok, hset⟩ := ihs ss' key rec2 hss
              have hcons : s :: ss' = slots' := by
                simp only [Except.map, Option.map, Except.ok.injEq, Option.some.injEq] at h
                exact h
              have hsl : slots' = s :: ss.set i (advanceSlot (ss.getD i dfltSlot) rec2) := by
                rw [← hcons, hset]
              refine ⟨i + 1, by simpa using Nat.succ_lt_succ hi, by simpa using hne,
                by simpa using htok, ?_⟩
              simpa using hsl

lemma scanSlots_total : ∀ (slots : List Slot) (key : Line) (rec2 : List Line),
    (∀ j, j < slots.length → ((slots.getD j dfltSlot).look.getD 0 [] = [] ∨
        (firstToken ((slots.getD j dfltSlot).look.getD 0 [])).isSome)) →
    scanSlots key rec2 slots = Except.ok none ∨
      ∃ slots', scanSlots key rec2 slots = Except.ok (some slots') := by
  intro slots
  induction slots with
  | nil => intro key rec2 h; exact Or.inl rfl
  | cons s ss ihs =>
    intro key rec2 hok
    have hs0 := hok 0 (by simp)
    simp only [List.getD_cons_zero] at hs0
    have hih := ihs key rec2 (fun j2 hj2 => by simpa using hok (j2 + 1) (by simpa using hj2))
    unfold scanSlots
    rcases hs0 with h0 | hs1
    · rw [if_pos h0]
      rcases hih with hn | ⟨ss', hsome⟩
      · rw [hn]
        exact Or.inl rfl
      · rw [hsome]
        exact Or.inr ⟨s :: ss', rfl⟩
    · obtain ⟨t, ht⟩ := Option.isSome_iff_exists.mp hs1
      rw [if_neg (slotSkips_ne_nil hs1)]
      simp only [ht]
      by_cases hteq : t = key
      · rw [if_pos hteq]
        exact Or.inr ⟨advanceSlot s rec2 :: ss, rfl⟩
      · rw [if_neg hteq]
        rcases hih with hn | ⟨ss', hsome⟩
        · rw [hn]
          exact Or.inl rfl
        · rw [hsome]
          exact Or.inr ⟨s :: ss', rfl⟩

/-- Removal of trailing whitespace only, the right half of `strip`. -/
def pyRstrip (s : List Char) : List Char :=
  (s.reverse.dropWhile pyIsSpace).reverse

lemma pyStrip_eq (s : List Char) : pyStrip s = pyRstrip (s.dropWhile pyIsSpace) := rfl

lemma pyRstrip_nil : pyRstrip [] = [] := rfl

lemma pyRstrip_cons (c : Char) (l : List Char) :
    pyRstrip (c :: l) =
      if pyRstrip l = [] then (if pyIsSpace c then [] else [c]) else c :: pyRstrip l := by
  unfold pyRstrip
  rw [List.reverse_cons, List.dropWhile_append]
  by_cases h : (l.reverse.dropWhile pyIsSpace).isEmpty
  · have h2 : l.reverse.dropWhile pyIsSpace = [] := by simpa [List.isEmpty_iff] using h
    rw [if_pos h, if_pos (by simp [h2])]
    by_cases hc : pyIsSpace c
    · simp [List.dropWhile, hc]
    · simp [List.dropWhile, hc]
  · have h2 : ¬l.reverse.dropWhile pyIsSpace = [] := by simpa [List.isEmpty_iff] using h
    rw [if_neg h, if_neg (by simp [h2])]
    simp

lemma pyRstrip_eq_nil_all_space {l : List Char} (h : pyRstrip l = []) :
    ∀ x ∈ l, pyIsSpace x := by
  unfold pyRstrip at h
  have h2 : l.reverse.dropWhile pyIsSpace = [] := by
    have h3 := congrArg List.reverse h
    simpa using h3
  intro x hx
  exact List.dropWhile_eq_nil_iff.mp h2 x (by simpa using hx)

lemma all_space_takeWhile {l : List Char} (hall : ∀ x ∈ l, pyIsSpace x) :
    l.takeWhile (fun a => !pyIsSpace a) = [] := by
  cases l with
  | nil => rfl
  | cons b l2 =>
    rw [List.takeWhile_cons, if_neg (by simp [hall b (List.mem_cons_self b l2)])]

lemma takeWhile_pyRstrip : ∀ (l : List Char),
    (pyRstrip l).takeWhile (fun a => !pyIsSpace a)
      = l.takeWhile (fun a => !pyIsSpace a) := by
  intro l
  induction l with
  | nil => rfl
  | cons c l ihl =>
    rw [pyRstrip_cons]
    by_cases h0 : pyRstrip l = []
    · have htl := all_space_takeWhile (pyRstrip_eq_nil_all_space h0)
      rw [if_pos h0]
      by_cases hc : pyIsSpace c
      · rw [if_pos hc]
        rw [List.takeWhile_cons, if_neg (by simp [hc])]
        rfl
      · rw [if_neg hc]
        simp only [List.takeWhile_cons]
        rw [if_pos (by simp [hc]), if_pos (by simp [hc]), htl]
        rfl
    · rw [if_neg h0]
      simp only [List.takeWhile_cons]
      by_cases hc : pyIsSpace c
      · rw [if_neg (by simp [hc]), if_neg (by simp [hc])]
      · rw [if_pos (by simp [hc]), if_pos (by simp [hc]), ihl]

lemma dropWhile_head_not {p : Char → Bool} : ∀ (s : List Char) (c : Char) (t : List Char),
    s.dropWhile p = c :: t → p c = false := by
  intro s
  induction s with
  | nil => intro c t h; simp at h
  | cons a s ihs =>
    intro c t h
    rw [List.dropWhile_cons] at h
    by_cases ha : p a
    · rw [if_pos ha] at h
      exact ihs c t h
    · rw [if_neg ha] at h
      injection h with h1 h2
      subst h1
      simpa using ha

lemma firstToken_cons_not_space {c : Char} {l : List Char} (hc : pyIsSpace c = false) :
    firstToken (c :: l) = some ((c :: l).takeWhile (fun a => !pyIsSpace a)) := by
  unfold firstToken
  rw [List.dropWhile_cons, if_neg (by simp [hc])]

lemma firstToken_pyStrip (s : List Char) : firstToken (pyStrip s) = firstToken s := by
  rw [pyStrip_eq]
  cases ht : s.dropWhile pyIsSpace with
  | nil =>
    unfold firstToken
    rw [ht, pyRstrip_nil]
    rfl
  | cons c t' =>
    have hc : pyIsSpace c = false := dropWhile_head_not s c t' ht
    have hcons : ∃ r2, pyRstrip (c :: t') = c :: r2 := by
      rw [pyRstrip_cons]
      by_cases h0 : pyRstrip t' = []
      · rw [if_pos h0, if_neg (by simp [hc])]
        exact ⟨[], rfl⟩
      · rw [if_neg h0]
        exact ⟨pyRstrip t', rfl⟩
    obtain ⟨r2, hr2⟩ := hcons
    have hRHS : firstToken s = some ((c :: t').takeWhile (fun a => !pyIsSpace a)) := by
      unfold firstToken
      rw [ht]
    have htw := takeWhile_pyRstrip (c :: t')
    rw [hr2] at htw
    rw [hRHS, hr2, firstToken_cons_not_space hc, htw]

lemma firstToken_isSome_pyStrip_ne_nil {s : List Char} (h : (firstToken s).isSome) :
    pyStrip s ≠ [] := by
  intro h0
  rw [← firstToken_pyStrip s, h0, firstToken_nil] at h
  simp at h

/-- A 4-line FASTQ record: identifier, sequence, secondary identifier,
quality line. -/
structure FRecord where
  l1 : Line
  l2 : Line
  l3 : Line
  l4 : Line
deriving DecidableEq

/-- The four lines of a record, as they sit in a file. -/
def recLines (r : FRecord) : List Line := [r.l1, r.l2, r.l3, r.l4]

/-- A file that is a concatenation of 4-line records. -/
def fileOf (rs : List FRecord) : List Line := (rs.map recLines).flatten

/-- A well-formed record: four non-empty lines and an identifier line
with at least one non-whitespace character, so that `split()[0]` is
defined. -/
def WFRec (r : FRecord) : Prop :=
  r.l1 ≠ [] ∧ r.l2 ≠ [] ∧ r.l3 ≠ [] ∧ r.l4 ≠ [] ∧ (firstToken r.l1).isSome

instance (r : FRecord) : Decidable (WFRec r) := by
  unfold WFRec
  infer_instance

/-- The record's key: the first whitespace-delimited token of its
identifier line. -/
def keyD (r : FRecord) : Line := (firstToken r.l1).getD []

lemma fileOf_cons (r : FRecord) (rs : List FRecord) :
    fileOf (r :: rs) = recLines r ++ fileOf rs := rfl

lemma read4_fileOf_cons (r : FRecord) (rs : List FRecord) :
    read4 (fileOf (r :: rs)) = (recLines r, fileOf rs) := rfl

lemma m2Check_recLines {r : FRecord} (h : WFRec r) : m2Check (recLines r) = true := by
  obtain ⟨h1, h2, h3, h4, h5⟩ := h
  simp [m2Check, recLines, List.isEmpty_iff, h1, h2, h3, h4]

lemma firstToken_eq_some_keyD {r : FRecord} (h : (firstToken r.l1).isSome) :
    firstToken r.l1 = some (keyD r) := by
  cases hf : firstToken r.l1 with
  | none => rw [hf] at h; simp at h
  | some k => simp [keyD, hf]

/-- Relation between the unread suffix of a slot's mate-1 record list
and the slot's concrete loop state; the `out` field is unconstrained.
The stripped lookahead produced by `initSlot` and the raw lookahead
produced by `advanceSlot` both satisfy it, because stripping does not
change the first token (`firstToken_pyStrip`). -/
def SlotRep : List FRecord → Slot → Prop
  | [], s => s.look.getD 0 [] = [] ∧ s.rest = []
  | r :: rest, s =>
      s.look.getD 0 [] ≠ [] ∧
      firstToken (s.look.getD 0 []) = some (keyD r) ∧
      WFRec r ∧ (∀ r2 ∈ rest, WFRec r2) ∧
      s.rest = fileOf rest

instance : ∀ (rs : List FRecord) (s : Slot), Decidable (SlotRep rs s)
  | [], _ => by unfold SlotRep; infer_instance
  | _ :: _, _ => by unfold SlotRep; infer_instance

lemma initSlotRep {rs : List FRecord} (h : ∀ r ∈ rs, WFRec r) :
    SlotRep rs (initSlot (fileOf rs)) := by
  cases rs with
  | nil => exact ⟨rfl, rfl⟩
  | cons r rest =>
    obtain ⟨h1, h2, h3, h4, h5⟩ := h r (List.mem_cons_self r rest)
    have hlook : (initSlot (fileOf (r :: rest))).look.getD 0 [] = pyStrip r.l1 := by
      unfold initSlot
      rw [read4_fileOf_cons]
      rfl
    have hrest : (initSlot (fileOf (r :: rest))).rest = fileOf rest := by
      unfold initSlot
      rw [read4_fileOf_cons]
    refine ⟨?_, ?_, ⟨h1, h2, h3, h4, h5⟩,
      fun r2 hr2 => h r2 (List.mem_cons_of_mem r hr2), hrest⟩
    · rw [hlook]
      exact firstToken_isSome_pyStrip_ne_nil h5
    · rw [hlook, firstToken_pyStrip]
      exact firstToken_eq_some_keyD h5

lemma SlotRep_advance {r : FRecord} {rest : List FRecord} {s : Slot} (rec2 : List Line)
    (h : SlotRep (r :: rest) s) : SlotRep rest (advanceSlot s rec2) := by
  obtain ⟨hne, htok, hwf, hwfr, hrest⟩ := h
  cases rest with
  | nil =>
    constructor
    · show (advanceSlot s rec2).look.getD 0 [] = []
      unfold advanceSlot
      rw [hrest]
      rfl
    · show (advanceSlot s rec2).rest = []
      unfold advanceSlot
      rw [hrest]
      rfl
  | cons r2 rest2 =>
    obtain ⟨h1, h2, h3, h4, h5⟩ := hwfr r2 (List.mem_cons_self r2 rest2)
    have hlook : (advanceSlot s rec2).look.getD 0 [] = r2.l1 := by
      unfold advanceSlot
      rw [hrest, read4_fileOf_cons]
      rfl
    have hr2 : (advanceSlot s rec2).rest = fileOf rest2 := by
      unfold advanceSlot
      rw [hrest, read4_fileOf_cons]
    refine ⟨?_, ?_, ⟨h1, h2, h3, h4, h5⟩,
      fun r3 hr3 => hwfr r3 (List.mem_cons_of_mem r2 hr3), hr2⟩
    · rw [hlook]
      exact h1
    · rw [hlook]
      exact firstToken_eq_some_keyD h5

lemma SlotRep_tokens {pend : List (List FRecord)} {slots : List Slot}
    (hlen : slots.length = pend.length)
    (hrep : ∀ i, i < pend.length → SlotRep (pend.getD i []) (slots.getD i dfltSlot)) :
    ∀ j, j < slots.length → ((slots.getD j dfltSlot).look.getD 0 [] = [] ∨
      (firstToken ((slots.getD j dfltSlot).look.getD 0 [])).isSome) := by
  intro j hj
  have h := hrep j (by omega)
  cases hp : pend.getD j [] with
  | nil =>
    rw [hp] at h
    exact Or.inl h.1
  | cons r rest =>
    rw [hp] at h
    refine Or.inr ?_
    rw [h.2.1]
    rfl

lemma recLines_getD_zero (r : FRecord) : (recLines r).getD 0 [] = r.l1 := rfl

/-- Every iteration of the loop on record-structured input classifies
exactly one mate-2 record, incrementing exactly one of the two
counters, until the mate-2 stream is exhausted. -/
lemma loopTotal : ∀ (m2 : List FRecord) (pend : List (List FRecord)) (slots : List Slot)
    (m u : Nat) (d : List Line),
    slots.length = pend.length →
    (∀ i, i < pend.length → SlotRep (pend.getD i []) (slots.getD i dfltSlot)) →
    (∀ r ∈ m2, WFRec r) →
    ∃ res, runLoop slots (read4 (fileOf m2)).2 (read4 (fileOf m2)).1 m u d = Except.ok res ∧
      res.matched + res.unmatched = m + u + m2.length := by
  intro m2
  induction m2 with
  | nil =>
    intro pend slots m u d hlen hrep hwf
    refine ⟨⟨slots, m, u, d⟩, ?_, by simp⟩
    show runLoop slots [] [[], [], [], []] m u d = _
    exact runLoop_stop slots [] m u d rfl
  | cons r m2 ihm =>
    intro pend slots m u d hlen hrep hwf
    obtain ⟨h1, h2, h3, h4, h5⟩ := hwf r (List.mem_cons_self r m2)
    have hwf' : ∀ r2 ∈ m2, WFRec r2 := fun r2 hr2 => hwf r2 (List.mem_cons_of_mem r hr2)
    have hchk : m2Check (recLines r) = true := m2Check_recLines ⟨h1, h2, h3, h4, h5⟩
    have htok : firstToken ((recLines r).getD 0 []) = some (keyD r) := by
      rw [recLines_getD_zero]
      exact firstToken_eq_some_keyD h5
    simp only [read4_fileOf_cons]
    rcases scanSlots_total slots (keyD r) (recLines r) (SlotRep_tokens hlen hrep)
      with hnone | ⟨slots', hsome⟩
    · obtain ⟨res, hres, hsum⟩ := ihm pend slots m (u + 1)
        (d ++ [diagMsg (keyD r)]) hlen hrep hwf'
      refine ⟨res, ?_, by simp only [List.length_cons]; omega⟩
      rw [runLoop_missStep (fileOf m2) m u d hchk htok hnone]
      exact hres
    · obtain ⟨i, hi, hne, htoki, hset⟩ := scanSlots_some_inv slots slots' (keyD r)
        (recLines r) hsome
      have hrepi := hrep i (by omega)
      cases hp : pend.getD i [] with
      | nil =>
        rw [hp] at hrepi
        exact absurd hrepi.1 hne
      | cons ph pt =>
        rw [hp] at hrepi
        have hadv := SlotRep_advance (recLines r) hrepi
        have hlen' : slots'.length = (pend.set i pt).length := by
          rw [hset]
          simp [hlen]
        have hrep' : ∀ i2, i2 < (pend.set i pt).length →
            SlotRep ((pend.set i pt).getD i2 []) (slots'.getD i2 dfltSlot) := by
          intro i2 hi2
          by_cases hii : i2 = i
          · subst hii
            rw [hset, getD_set_self _ _ _ _ (by omega), getD_set_self _ _ _ _ hi]
            exact hadv
          · rw [hset, getD_set_ne _ _ _ _ _ hii, getD_set_ne _ _ _ _ _ hii]
            exact hrep i2 (by simpa using hi2)
        obtain ⟨res, hres, hsum⟩ := ihm (pend.set i pt) slots' (m + 1) u d hlen' hrep' hwf'
        refine ⟨res, ?_, by simp only [List.length_cons]; omega⟩
        rw [runLoop_matchStep (fileOf m2) m u d hchk htok hsome]
        exact hres

/-- The keys of a list of records, in order. -/
def keysOf (rs : List FRecord) : List Line := rs.map keyD

lemma keysOf_cons (r : FRecord) (rs : List FRecord) :
    keysOf (r :: rs) = keyD r :: keysOf rs := rfl

/-- When every remaining mate-2 key lives in exactly one slot's pending
mate-1 records and, slot by slot, the mate-2 keys arrive in the order of
that slot's pending records, every iteration matches: the counters end
at `m + m2.length` and `u`, and no diagnostic is emitted. -/
lemma loopAllMatched : ∀ (m2 : List FRecord) (pend : List (List FRecord)) (slots : List Slot)
    (m u : Nat) (d : List Line),
    slots.length = pend.length →
    (∀ i, i < pend.length → SlotRep (pend.getD i []) (slots.getD i dfltSlot)) →
    (∀ r ∈ m2, WFRec r) →
    (∀ r ∈ m2, ∃ i, i < pend.length ∧ keyD r ∈ keysOf (pend.getD i []) ∧
        ∀ j, j < pend.length → j ≠ i → keyD r ∉ keysOf (pend.getD j [])) →
    (∀ i, i < pend.length →
        (m2.map keyD).filter (fun k => decide (k ∈ keysOf (pend.getD i [])))
          <+: keysOf (pend.getD i [])) →
    ∃ slots2, runLoop slots (read4 (fileOf m2)).2 (read4 (fileOf m2)).1 m u d
        = Except.ok ⟨slots2, m + m2.length, u, d⟩ := by
  intro m2
  induction m2 with
  | nil =>
    intro pend slots m u d hlen hrep hwf huni hord
    refine ⟨slots, ?_⟩
    simp only [List.length_nil, Nat.add_zero]
    show runLoop slots [] [[], [], [], []] m u d = _
    exact runLoop_stop slots [] m u d rfl
  | cons r m2 ihm =>
    intro pend slots m u d hlen hrep hwf huni hord
    obtain ⟨h1, h2, h3, h4, h5⟩ := hwf r (List.mem_cons_self r m2)
    have hwf' : ∀ r2 ∈ m2, WFRec r2 := fun r2 hr2 => hwf r2 (List.mem_cons_of_mem r hr2)
    have hchk : m2Check (recLines r) = true := m2Check_recLines ⟨h1, h2, h3, h4, h5⟩
    have htokr : firstToken ((recLines r).getD 0 []) = some (keyD r) := by
      rw [recLines_getD_zero]
      exact firstToken_eq_some_keyD h5
    obtain ⟨i, hi, hkin, hkout⟩ := huni r (List.mem_cons_self r m2)
    have hordi := hord i hi
    rw [List.map_cons, List.filter_cons_of_pos (by simpa using hkin)] at hordi
    obtain ⟨tl, htl⟩ := hordi
    cases hp : pend.getD i [] with
    | nil =>
      rw [hp] at hkin
      simp [keysOf] at hkin
    | cons ph pt =>
      rw [hp, keysOf_cons, List.cons_append] at htl
      injection htl with hh ht2
      have hph : keyD ph = keyD r := hh.symm
      rw [← keysOf_cons ph pt, ← hp] at ht2
      have hXpre : (m2.map keyD).filter (fun k => decide (k ∈ keysOf (pend.getD i [])))
          <+: keysOf pt := ⟨tl, ht2⟩
      have hrepi := hrep i (by omega)
      rw [hp] at hrepi
      have hne : (slots.getD i dfltSlot).look.getD 0 [] ≠ [] := hrepi.1
      have htoki : firstToken ((slots.getD i dfltSlot).look.getD 0 []) = some (keyD r) := by
        rw [hrepi.2.1, hph]
      have hskip : ∀ j, j < i → slotSkips (slots.getD j dfltSlot) (keyD r) := by
        intro j hj
        have hrepj := hrep j (by omega)
        cases hq : pend.getD j [] with
        | nil =>
          rw [hq] at hrepj
          exact Or.inl hrepj.1
        | cons qh qt =>
          rw [hq] at hrepj
          refine Or.inr ⟨by rw [hrepj.2.1]; rfl, ?_⟩
          rw [hrepj.2.1]
          intro hcon
          injection hcon with hqr
          have hmem : keyD r ∈ keysOf (pend.getD j []) := by
            rw [hq, keysOf_cons, ← hqr]
            exact List.mem_cons_self _ _
          exact hkout j (by omega) (by omega) hmem
      have hsome := scanSlots_found slots i (keyD r) (recLines r) (by omega) hskip hne htoki
      have hadv := SlotRep_advance (recLines r) hrepi
      have hlen2 : (slots.set i (advanceSlot (slots.getD i dfltSlot) (recLines r))).length
          = (pend.set i pt).length := by
        simp [hlen]
      have hrep2 : ∀ i2, i2 < (pend.set i pt).length →
          SlotRep ((pend.set i pt).getD i2 [])
            ((slots.set i (advanceSlot (slots.getD i dfltSlot) (recLines r))).getD
              i2 dfltSlot) := by
        intro i2 hi2
        by_cases hii : i2 = i
        · subst hii
          rw [getD_set_self _ _ _ _ (by omega), getD_set_self _ _ _ _ (by omega)]
          exact hadv
        · rw [getD_set_ne _ _ _ _ _ hii, getD_set_ne _ _ _ _ _ hii]
          exact hrep i2 (by simpa using hi2)
      have huni2 : ∀ r2 ∈ m2, ∃ i2, i2 < (pend.set i pt).length ∧
          keyD r2 ∈ keysOf ((pend.set i pt).getD i2 []) ∧
          ∀ j, j < (pend.set i pt).length → j ≠ i2 →
            keyD r2 ∉ keysOf ((pend.set i pt).getD j []) := by
        intro r2 hr2
        obtain ⟨i2, hi2, hin2, hout2⟩ := huni r2 (List.mem_cons_of_mem r hr2)
        refine ⟨i2, by simpa using hi2, ?_, ?_⟩
        · by_cases hii : i2 = i
          · subst hii
            rw [getD_set_self _ _ _ _ (by omega)]
            rw [hp, keysOf_cons] at hin2
            rcases List.mem_cons.mp hin2 with hh2 | hh2
            · have hmemX : keyD r2 ∈ (m2.map keyD).filter
                  (fun k => decide (k ∈ keysOf (pend.getD i2 []))) := by
                rw [List.mem_filter]
                refine ⟨List.mem_map.mpr ⟨r2, hr2, rfl⟩, ?_⟩
                simp only [decide_eq_true_eq]
                rw [hp, keysOf_cons, hh2, hph]
                rw [← hph]
                exact List.mem_cons_self _ _
              exact hXpre.subset hmemX
            · exact hh2
          · rw [getD_set_ne _ _ _ _ _ hii]
            exact hin2
        · intro j hj hji
          by_cases hjj : j = i
          · subst hjj
            rw [getD_set_self _ _ _ _ (by omega)]
            intro hcon
            have hmem : keyD r2 ∈ keysOf (pend.getD j []) := by
              rw [hp, keysOf_cons]
              exact List.mem_cons_of_mem _ hcon
            exact hout2 j (by omega) hji hmem
          · rw [getD_set_ne _ _ _ _ _ hjj]
            exact hout2 j (by simpa using hj) hji
      have hord2 : ∀ i2, i2 < (pend.set i pt).length →
          (m2.map keyD).filter (fun k => decide (k ∈ keysOf ((pend.set i pt).getD i2 [])))
            <+: keysOf ((pend.set i pt).getD i2 []) := by
        intro i2 hi2
        by_cases hii : i2 = i
        · subst hii
          rw [getD_set_self _ _ _ _ (by omega)]
          have hfc : (m2.map keyD).filter (fun k => decide (k ∈ keysOf pt))
              = (m2.map keyD).filter (fun k => decide (k ∈ keysOf (pend.getD i2 []))) := by
            apply List.filter_congr
            intro k hk
            rw [decide_eq_decide]
            constructor
            · intro hmem
              rw [hp, keysOf_cons]
              exact List.mem_cons_of_mem _ hmem
            · intro hmem
              rw [hp, keysOf_cons] at hmem
              rcases List.mem_cons.mp hmem with hh2 | hh2
              · have hmemX : k ∈ (m2.map keyD).filter
                    (fun k2 => decide (k2 ∈ keysOf (pend.getD i2 []))) := by
                  rw [List.mem_filter]
                  refine ⟨hk, ?_⟩
                  simp only [decide_eq_true_eq]
                  rw [hp, keysOf_cons, hh2]
                  exact List.mem_cons_self _ _
                exact hXpre.subset hmemX
              · exact hh2
          rw [hfc]
          exact hXpre
        · rw [getD_set_ne _ _ _ _ _ hii]
          have hnotin := hkout i2 (by simpa using hi2) hii
          have hold := hord i2 (by simpa using hi2)
          rw [List.map_cons,
            List.filter_cons_of_neg (by simp only [decide_eq_true_eq]; exact hnotin)] at hold
          exact hold
      obtain ⟨slots2, hres⟩ := ihm (pend.set i pt)
        (slots.set i (advanceSlot (slots.getD i dfltSlot) (recLines r)))
        (m + 1) u d hlen2 hrep2 hwf' huni2 hord2
      refine ⟨slots2, ?_⟩
      simp only [read4_fileOf_cons]
      rw [runLoop_matchStep (fileOf m2) m u d hchk htokr hsome]
      have hcnt : m + 1 + m2.length = m + (r :: m2).length := by
        simp only [List.length_cons]
        omega
      rw [← hcnt]
      exact hres

/-- Lines 248-257: the `for x, y in zip(a, b)` loop of the script's
` find_prefix`, accumulating `c` and breaking at the first mismatch. -/
def find_prefix : List Char → List Char → List Char
  | x :: a, y :: b => if x ≠ y then [] else x :: find_prefix a b
  | _, _ => []

/-- Identifiers for the per-slot streams opened at lines 183-188: the
mate-1 demultiplexed inputs and the mate-2 demultiplexed outputs. -/
inductive StreamId where
  | mate1 : Nat → StreamId
  | mate2out : Nat → StreamId
deriving DecidableEq

/-- Index of the first failing `open`, given each call's success. -/
def firstFalse : List Bool → Option Nat
  | [] => none
  | b :: bs => if b then (firstFalse bs).map (fun n => n + 1) else some 0

/-- Outcome of the `try`/`finally` of lines 180-233 for stream cleanup:
the handles never closed, and whether the `finally` itself raised
`NameError`. -/
structure CleanupOutcome where
  stillOpen : List StreamId
  cleanupNameError : Bool
deriving DecidableEq

/-- The cleanup discipline of lines 180-233.  In Python 2,
`xs = [open(f) for f in fnames]` binds `xs` only after the whole
comprehension succeeds: files opened before a failing `open` are
referenced by nothing, and the `finally`'s `map(lambda x: x.close(), xs)`
(lines 232-233) raises `NameError` when `xs` is unbound, skipping the
rest of the cleanup.  `ok1` and `ok2` give each `open`'s success in the
two comprehensions (lines 183-184 and 187-188); `bodyFails` says whether
the loop body (lines 192-230) raises.  The mate-2 input `f_2` is opened
by `with` (line 177) and always closed, so it does not appear.  When
`ok1` fails at index `k`, the mate-1 handles `0..k-1` leak and the
`finally` raises; when `ok1` succeeds and `ok2` fails at `k`, the
mate-1 handles are all closed but the mate-2 output handles `0..k-1`
leak; when both succeed, the `finally` closes everything whatever the
body did. -/
def runCleanup (ok1 ok2 : List Bool) (bodyFails : Bool) : CleanupOutcome :=
  match firstFalse ok1 with
  | some k => ⟨(List.range k).map StreamId.mate1, true⟩
  | none =>
    match firstFalse ok2 with
    | some k => ⟨(List.range k).map StreamId.mate2out, true⟩
    | none => ⟨[], false⟩

lemma firstFalse_replicate_true : ∀ n, firstFalse (List.replicate n true) = none := by
  intro n
  induction n with
  | zero => rfl
  | succ k ihn =>
    show firstFalse (true :: List.replicate k true) = none
    unfold firstFalse
    rw [if_pos rfl, ihn]
    rfl

/-- Scenario fixtures: mate-1 records with keys `@id1`, `@id2`, `@id3`
and the corresponding mate-2 records (different sequence and quality
lines, same keys). -/
def r1A1 : FRecord :=
  ⟨['@', 'i', 'd', '1', '\n'], ['A', 'C', 'A', 'A', '\n'], ['+', '\n'],
   ['I', 'I', 'I', 'I', '\n']⟩

def r1A2 : FRecord :=
  ⟨['@', 'i', 'd', '2', '\n'], ['A', 'C', 'C', 'C', '\n'], ['+', '\n'],
   ['I', 'I', 'I', 'I', '\n']⟩

def r1B1 : FRecord :=
  ⟨['@', 'i', 'd', '3', '\n'], ['A', 'C', 'G', 'G', '\n'], ['+', '\n'],
   ['I', 'I', 'I', 'I', '\n']⟩

def r2id1 : FRecord :=
  ⟨['@', 'i', 'd', '1', '\n'], ['T', 'T', 'A', 'A', '\n'], ['+', '\n'],
   ['J', 'J', 'J', 'J', '\n']⟩

def r2id2 : FRecord :=
  ⟨['@', 'i', 'd', '2', '\n'], ['T', 'T', 'C', 'C', '\n'], ['+', '\n'],
   ['J', 'J', 'J', 'J', '\n']⟩

def r2id3 : FRecord :=
  ⟨['@', 'i', 'd', '3', '\n'], ['T', 'T', 'G', 'G', '\n'], ['+', '\n'],
   ['J', 'J', 'J', 'J', '\n']⟩

/-- Small fixtures for witnesses. -/
def wSlot : Slot := ⟨[['@', 'a', '\n'], ['A', '\n'], ['+', '\n'], ['I', '\n']], [], []⟩

def wRec2 : List Line := [['@', 'a', '\n'], ['T', '\n'], ['+', '\n'], ['J', '\n']]

def wSlotAdv : Slot := ⟨[[], [], [], []], [], wRec2⟩

lemma getD_mem {α : Type} : ∀ (l : List α) (i : Nat) (d : α), i < l.length → l.getD i d ∈ l := by
  intro l
  induction l with
  | nil => intro i d hi; simp at hi
  | cons a t ihl =>
    intro i d hi
    cases i with
    | zero => exact List.mem_cons_self a t
    | succ j => exact List.mem_cons_of_mem a (ihl j d (by simpa using hi))

lemma getD_map_init (files1 : List (List FRecord)) :
    ∀ (i : Nat), i < files1.length →
    ((files1.map fileOf).map initSlot).getD i dfltSlot
      = initSlot (fileOf (files1.getD i [])) := by
  induction files1 with
  | nil => intro i hi; simp at hi
  | cons f fs ihf =>
    intro i hi
    cases i with
    | zero => rfl
    | succ j => exact ihf j (by simpa using hi)

/-- C1: a mate-2 record `rec2` with key `key` is written to exactly the
first slot, in the fixed slot order, whose lookahead is a non-exhausted
record with matching first token: that slot's output is extended by the
record and its lookahead advanced by one `read4` (`advanceSlot`), the
matched counter is incremented, every other slot is untouched
(`List.set`), and the slots after `i` are never consulted.  Second
conjunct: the spec's scenario — slot A holds mate-1 keys `@id1, @id2`,
slot B holds `@id3`, the mate-2 stream is `@id3, @id1, @id2`; B's output
receives the `@id3` record, A's output the `@id1` then `@id2` records in
that order, with 3 matched, 0 unmatched and no diagnostic. -/
theorem C1_first_match_routing :
    (∀ (slots : List Slot) (f2 rec2 : List Line) (m u : Nat) (d : List Line)
        (key : Line) (i : Nat),
      m2Check rec2 = true →
      firstToken (rec2.getD 0 []) = some key →
      i < slots.length →
      (∀ j, j < i → slotSkips (slots.getD j dfltSlot) key) →
      (slots.getD i dfltSlot).look.getD 0 [] ≠ [] →
      firstToken ((slots.getD i dfltSlot).look.getD 0 []) = some key →
      runLoop slots f2 rec2 m u d
        = runLoop (slots.set i (advanceSlot (slots.getD i dfltSlot) rec2))
            (read4 f2).2 (read4 f2).1 (m + 1) u d) ∧
    runSync [fileOf [r1A1, r1A2], fileOf [r1B1]] (fileOf [r2id3, r2id1, r2id2])
      = Except.ok ⟨[⟨[[], [], [], []], [], recLines r2id1 ++ recLines r2id2⟩,
          ⟨[[], [], [], []], [], recLines r2id3⟩], 3, 0, []⟩ := by
  constructor
  · intro slots f2 rec2 m u d key i hchk htok hi hskip hne htoki
    exact runLoop_matchStep f2 m u d hchk htok
      (scanSlots_found slots i key rec2 hi hskip hne htoki)
  · decide

/-- Witness for C1 at a concrete one-slot state. -/
theorem C1_first_match_routing_witness :
    runLoop [wSlot] [] wRec2 0 0 []
      = runLoop [advanceSlot wSlot wRec2] (read4 []).2 (read4 []).1 1 0 [] :=
  C1_first_match_routing.1 [wSlot] [] wRec2 0 0 [] ['@', 'a'] 0 (by decide) (by decide)
    (by decide) (fun j hj => absurd hj (Nat.not_lt_zero j)) (by decide) (by decide)

/-- C2: when every mate-2 key appears in exactly one slot's mate-1
sequence and, within each slot, the mate-1 keys appear in the same
relative order as the mate-2 records routed to it (slot by slot, the
routed keys form a prefix of the slot's key sequence), the run ends with
`matched` equal to the number of mate-2 records, `unmatched = 0`, and no
diagnostic. -/
theorem C2_all_matched_counts (files1 : List (List FRecord)) (m2 : List FRecord)
    (hwf1 : ∀ rs ∈ files1, ∀ r ∈ rs, WFRec r)
    (hwf2 : ∀ r ∈ m2, WFRec r)
    (huni : ∀ r ∈ m2, ∃ i, i < files1.length ∧ keyD r ∈ keysOf (files1.getD i []) ∧
        ∀ j, j < files1.length → j ≠ i → keyD r ∉ keysOf (files1.getD j []))
    (hord : ∀ i, i < files1.length →
        (m2.map keyD).filter (fun k => decide (k ∈ keysOf (files1.getD i [])))
          <+: keysOf (files1.getD i [])) :
    ∃ res, runSync (files1.map fileOf) (fileOf m2) = Except.ok res ∧
      res.matched = m2.length ∧ res.unmatched = 0 ∧ res.diags = [] := by
  unfold runSync
  have hlen : ((files1.map fileOf).map initSlot).length = files1.length := by simp
  have hrep : ∀ i, i < files1.length →
      SlotRep (files1.getD i []) (((files1.map fileOf).map initSlot).getD i dfltSlot) := by
    intro i hi
    rw [getD_map_init files1 i hi]
    exact initSlotRep (hwf1 _ (getD_mem files1 i [] hi))
  obtain ⟨slots2, hres⟩ := loopAllMatched m2 files1 ((files1.map fileOf).map initSlot)
    0 0 [] hlen hrep hwf2 huni hord
  exact ⟨⟨slots2, 0 + m2.length, 0, []⟩, hres, by simp, rfl, rfl⟩

/-- Witness for C2 on the scenario input. -/
theorem C2_all_matched_counts_witness :
    ∃ res, runSync ([[r1A1, r1A2], [r1B1]].map fileOf) (fileOf [r2id3, r2id1, r2id2])
        = Except.ok res ∧ res.matched = 3 ∧ res.unmatched = 0 ∧ res.diags = [] := by
  have huni : ∀ r ∈ ([r2id3, r2id1, r2id2] : List FRecord),
      ∃ i, i < ([[r1A1, r1A2], [r1B1]] : List (List FRecord)).length ∧
        keyD r ∈ keysOf (([[r1A1, r1A2], [r1B1]] : List (List FRecord)).getD i []) ∧
        ∀ j, j < ([[r1A1, r1A2], [r1B1]] : List (List FRecord)).length → j ≠ i →
          keyD r ∉ keysOf (([[r1A1, r1A2], [r1B1]] : List (List FRecord)).getD j []) := by
    intro r hr
    simp only [List.mem_cons, List.not_mem_nil, or_false] at hr
    rcases hr with rfl | rfl | rfl
    · exact ⟨1, by decide, by decide, by decide⟩
    · exact ⟨0, by decide, by decide, by decide⟩
    · exact ⟨0, by decide, by decide, by decide⟩
  have hord : ∀ i, i < ([[r1A1, r1A2], [r1B1]] : List (List FRecord)).length →
      (([r2id3, r2id1, r2id2] : List FRecord).map keyD).filter
          (fun k => decide (k ∈ keysOf (([[r1A1, r1A2], [r1B1]] :
            List (List FRecord)).getD i [])))
        <+: keysOf (([[r1A1, r1A2], [r1B1]] : List (List FRecord)).getD i []) := by
    intro i hi
    have hi2 : i < 2 := by simpa using hi
    interval_cases i
    · exact ⟨[], by decide⟩
    · exact ⟨[], by decide⟩
  obtain ⟨res, hres, hm, hu, hd⟩ := C2_all_matched_counts [[r1A1, r1A2], [r1B1]]
    [r2id3, r2id1, r2id2] (by decide) (by decide) huni hord
  exact ⟨res, hres, hm, hu, hd⟩

/-- C3: starting from any loop state (counters `m`, `u`, any slots
related to pending record lists, any diagnostics) with a record-formed
remaining mate-2 stream, the loop terminates normally and the final
counter sum exceeds the starting sum by exactly the number of remaining
mate-2 records: every iteration reads one record and increments exactly
one of the two counters. -/
theorem C3_counter_invariant (m2 : List FRecord) (pend : List (List FRecord))
    (slots : List Slot) (m u : Nat) (d : List Line)
    (hlen : slots.length = pend.length)
    (hrep : ∀ i, i < pend.length → SlotRep (pend.getD i []) (slots.getD i dfltSlot))
    (hwf : ∀ r ∈ m2, WFRec r) :
    ∃ res, runLoop slots (read4 (fileOf m2)).2 (read4 (fileOf m2)).1 m u d = Except.ok res ∧
      res.matched + res.unmatched = m + u + m2.length :=
  loopTotal m2 pend slots m u d hlen hrep hwf

/-- Witness for C3: one exhausted slot, one unmatched mate-2 record,
counters started at 2 and 3. -/
theorem C3_counter_invariant_witness :
    ∃ res, runLoop [dfltSlot] (read4 (fileOf [r2id1])).2 (read4 (fileOf [r2id1])).1 2 3 []
        = Except.ok res ∧ res.matched + res.unmatched = 2 + 3 + [r2id1].length :=
  C3_counter_invariant [r2id1] [[]] [dfltSlot] 2 3 [] (by decide)
    (fun i hi => by
      have hi0 : i = 0 := by simpa using hi
      subst hi0
      decide)
    (by decide)

/-- C4: when the scan writes the mate-2 record `rec2` (whose key is
`key`, the loop's `read_name`) to some slot, the mate-1 lookahead
consumed from that same slot at that step has the same key. -/
theorem C4_roundtrip_key (key : Line) (rec2 : List Line) (slots slots' : List Slot)
    (htok : firstToken (rec2.getD 0 []) = some key)
    (hscan : scanSlots key rec2 slots = Except.ok (some slots')) :
    ∃ i, i < slots.length ∧
      firstToken ((slots.getD i dfltSlot).look.getD 0 []) = some key ∧
      (slots'.getD i dfltSlot).out = (slots.getD i dfltSlot).out ++ rec2 := by
  obtain ⟨i, hi, hne, htoki, hset⟩ := scanSlots_some_inv slots slots' key rec2 hscan
  refine ⟨i, hi, htoki, ?_⟩
  rw [hset, getD_set_self _ _ _ _ hi]
  rfl

/-- Witness for C4 at a concrete one-slot state. -/
theorem C4_roundtrip_key_witness :
    ∃ i, i < [wSlot].length ∧
      firstToken (([wSlot].getD i dfltSlot).look.getD 0 []) = some ['@', 'a'] ∧
      ([wSlotAdv].getD i dfltSlot).out = ([wSlot].getD i dfltSlot).out ++ wRec2 :=
  C4_roundtrip_key ['@', 'a'] wRec2 [wSlot] [wSlotAdv] (by decide) (by decide)

/-- C5: a mate-2 record whose key matches no slot's current lookahead —
including when there are no slots at all — produces exactly one stderr
diagnostic naming its key, increments the unmatched counter, leaves
every slot (and thus every output stream) unchanged, and the loop
continues with the next record. -/
theorem C5_unmatched_diagnostic (slots : List Slot) (f2 rec2 : List Line) (m u : Nat)
    (d : List Line) (key : Line)
    (hchk : m2Check rec2 = true)
    (htok : firstToken (rec2.getD 0 []) = some key)
    (hskip : ∀ j, j < slots.length → slotSkips (slots.getD j dfltSlot) key) :
    runLoop slots f2 rec2 m u d
      = runLoop slots (read4 f2).2 (read4 f2).1 m (u + 1) (d ++ [diagMsg key]) :=
  runLoop_missStep f2 m u d hchk htok (scanSlots_none slots key rec2 hskip)

/-- Witness for C5 with zero slots. -/
theorem C5_unmatched_diagnostic_witness :
    runLoop [] [] wRec2 0 0 []
      = runLoop [] (read4 []).2 (read4 []).1 0 1 ([] ++ [diagMsg ['@', 'a']]) :=
  C5_unmatched_diagnostic [] [] wRec2 0 0 [] ['@', 'a'] (by decide) (by decide)
    (fun j hj => absurd hj (Nat.not_lt_zero j))

/-- C6 counterexample: a mate-2 stream whose last record is followed by
two trailing lines.  The run completes normally (`Except.ok`, never an
error), with no diagnostic, and the two trailing lines are written
nowhere — they are silently dropped, not reported as a fatal condition. -/
theorem C6_counterexample :
    runSync [fileOf [r1A1]]
        (fileOf [r2id1] ++ [['@', 'i', 'd', '2', '\n'], ['T', 'T', '\n']])
      = Except.ok ⟨[⟨[[], [], [], []], [], recLines r2id1⟩], 1, 0, []⟩ := by
  decide

/-- C6 amended: when the remaining mate-2 stream holds only 1 to 3
trailing lines, the loop reads them as a partial group, the
`while all(...)` check fails, and the loop terminates normally with
state unchanged: no error, no diagnostic, no write. -/
theorem C6_trailing_lines_silent (t : List Line) (slots : List Slot) (m u : Nat)
    (d : List Line) (h1 : 1 ≤ t.length) (h3 : t.length ≤ 3) :
    runLoop slots (read4 t).2 (read4 t).1 m u d = Except.ok ⟨slots, m, u, d⟩ := by
  rcases t with _ | ⟨a, _ | ⟨b, _ | ⟨c, _ | ⟨e, tt⟩⟩⟩⟩
  · simp at h1
  · exact runLoop_stop slots _ m u d (by simp [m2Check, read4, readline])
  · exact runLoop_stop slots _ m u d (by simp [m2Check, read4, readline])
  · exact runLoop_stop slots _ m u d (by simp [m2Check, read4, readline])
  · simp at h3

/-- Witness for the amended C6 at one trailing line. -/
theorem C6_trailing_lines_silent_witness :
    runLoop [] (read4 [['x', '\n']]).2 (read4 [['x', '\n']]).1 2 3 []
      = Except.ok ⟨[], 2, 3, []⟩ :=
  C6_trailing_lines_silent [['x', '\n']] [] 2 3 [] (by decide) (by decide)

/-- C7: the claim that every successfully opened stream is released on
all exit paths fails in the code.  First conjunct: when `open` of the
second mate-1 demultiplexed file fails after the first was opened, the
first handle is never closed and the `finally` itself raises
`NameError`.  Second conjunct: when every `open` succeeds, cleanup does
close everything regardless of whether the loop body fails. -/
theorem C7_open_failure_leaks :
    runCleanup [true, false] [true, true] false
        = ⟨[StreamId.mate1 0], true⟩ ∧
    (∀ n1 n2 bodyFails,
      runCleanup (List.replicate n1 true) (List.replicate n2 true) bodyFails
        = ⟨[], false⟩) := by
  constructor
  · rfl
  · intro n1 n2 bodyFails
    unfold runCleanup
    rw [firstFalse_replicate_true n1, firstFalse_replicate_true n2]

/-- C8: ` find_prefix a b` is the longest common prefix of `a` and `b`:
a prefix of both, and either its length is that of the shorter string or
the next characters of `a` and `b` differ. -/
theorem C8_longest_common_start : ∀ (a b : List Char),
    ( find_prefix a b) <+: a ∧ ( find_prefix a b) <+: b ∧
      (( find_prefix a b).length = min a.length b.length ∨
        ∃ x y, a[( find_prefix a b).length]? = some x ∧
          b[( find_prefix a b).length]? = some y ∧ x ≠ y) := by
  intro a
  induction a with
  | nil =>
    intro b
    exact ⟨⟨[], rfl⟩, ⟨b, rfl⟩, Or.inl (by simp [ find_prefix])⟩
  | cons x a iha =>
    intro b
    cases b with
    | nil =>
      exact ⟨⟨x :: a, rfl⟩, ⟨[], rfl⟩, Or.inl (by simp [ find_prefix])⟩
    | cons y b =>
      by_cases hxy : x = y
      · subst hxy
        obtain ⟨hpa, hpb, hrest⟩ := iha b
        have hfp : find_prefix (x :: a) (x :: b) = x :: find_prefix a b := by
          show (if x ≠ x then [] else x :: find_prefix a b) = x :: find_prefix a b
          rw [if_neg (by simp)]
        refine ⟨?_, ?_, ?_⟩
        · rw [hfp]
          obtain ⟨ta, hta⟩ := hpa
          exact ⟨ta, by rw [List.cons_append, hta]⟩
        · rw [hfp]
          obtain ⟨tb, htb⟩ := hpb
          exact ⟨tb, by rw [List.cons_append, htb]⟩
        · rw [hfp]
          rcases hrest with hlen | ⟨x2, y2, hx2, hy2, hne⟩
          · exact Or.inl (by simp [hlen, Nat.succ_min_succ])
          · exact Or.inr ⟨x2, y2, by simpa using hx2, by simpa using hy2, hne⟩
      · have hfp : find_prefix (x :: a) (y :: b) = [] := by
          show (if x ≠ y then [] else x :: find_prefix a b) = []
          rw [if_pos hxy]
        rw [hfp]
        exact ⟨⟨x :: a, rfl⟩, ⟨y :: b, rfl⟩,
          Or.inr ⟨x, y, by simp, by simp, hxy⟩⟩

/-- Witness for C8 on concrete strings. -/
theorem C8_longest_common_start_witness :
    ( find_prefix ['a', 'b', 'c'] ['a', 'b', 'd']) <+: ['a', 'b', 'c'] ∧
    ( find_prefix ['a', 'b', 'c'] ['a', 'b', 'd']) <+: ['a', 'b', 'd'] ∧
      (( find_prefix ['a', 'b', 'c'] ['a', 'b', 'd']).length
          = min ['a', 'b', 'c'].length ['a', 'b', 'd'].length ∨
        ∃ x y, ['a', 'b', 'c'][( find_prefix ['a', 'b', 'c'] ['a', 'b', 'd']).length]?
            = some x ∧
          ['a', 'b', 'd'][( find_prefix ['a', 'b', 'c'] ['a', 'b', 'd']).length]?
            = some y ∧ x ≠ y) :=
  C8_longest_common_start ['a', 'b', 'c'] ['a', 'b', 'd']

/-- C9: key extraction is partial.  First conjunct: a mate-2 record
whose identifier line is non-empty but whitespace-only makes the loop
fail with `IndexError` (from `split()[0]`) instead of classifying the
record.  Second conjunct: likewise when the scan reaches a slot whose
non-empty lookahead identifier line is whitespace-only. -/
theorem C9_whitespace_key_error :
    (∀ (slots : List Slot) (f2 rec2 : List Line) (m u : Nat) (d : List Line),
      m2Check rec2 = true →
      firstToken (rec2.getD 0 []) = none →
      runLoop slots f2 rec2 m u d = Except.error RunError.indexError) ∧
    (∀ (slots : List Slot) (f2 rec2 : List Line) (m u : Nat) (d : List Line)
        (key : Line) (i : Nat),
      m2Check rec2 = true →
      firstToken (rec2.getD 0 []) = some key →
      i < slots.length →
      (∀ j, j < i → slotSkips (slots.getD j dfltSlot) key) →
      (slots.getD i dfltSlot).look.getD 0 [] ≠ [] →
      firstToken ((slots.getD i dfltSlot).look.getD 0 []) = none →
      runLoop slots f2 rec2 m u d = Except.error RunError.indexError) := by
  constructor
  · intro slots f2 rec2 m u d hchk htok
    exact runLoop_keyErr slots f2 m u d hchk htok
  · intro slots f2 rec2 m u d key i hchk htok hi hskip hne htoki
    exact runLoop_scanErr f2 m u d hchk htok
      (scanSlots_err slots i key rec2 hi hskip hne htoki)

/-- Witness for C9: a whitespace-only mate-2 identifier line. -/
theorem C9_whitespace_key_error_witness :
    runLoop [] [] [[' ', '\n'], ['T', '\n'], ['+', '\n'], ['J', '\n']] 0 0 []
      = Except.error RunError.indexError :=
  C9_whitespace_key_error.1 [] [] [[' ', '\n'], ['T', '\n'], ['+', '\n'], ['J', '\n']]
    0 0 [] (by decide) (by decide)

/-- C10: frame property.  First conjunct: a successful scan changes the
state of exactly one slot — the result is `slots.set i` of the advanced
slot, and every slot with another index (lookahead, remaining file and
output alike) is unchanged.  Second conjunct: when no slot matches, the
loop recurses with the slot list — hence every lookahead and every
output stream — untouched; only the unmatched counter and the
diagnostics change. -/
theorem C10_frame :
    (∀ (key : Line) (rec2 : List Line) (slots slots' : List Slot),
      scanSlots key rec2 slots = Except.ok (some slots') →
      ∃ i, i < slots.length ∧
        slots' = slots.set i (advanceSlot (slots.getD i dfltSlot) rec2) ∧
        ∀ j, j ≠ i → slots'.getD j dfltSlot = slots.getD j dfltSlot) ∧
    (∀ (slots : List Slot) (f2 rec2 : List Line) (m u : Nat) (d : List Line) (key : Line),
      m2Check rec2 = true →
      firstToken (rec2.getD 0 []) = some key →
      scanSlots key rec2 slots = Except.ok none →
      runLoop slots f2 rec2 m u d
        = runLoop slots (read4 f2).2 (read4 f2).1 m (u + 1) (d ++ [diagMsg key])) := by
  constructor
  · intro key rec2 slots slots' hscan
    obtain ⟨i, hi, hne, htoki, hset⟩ := scanSlots_some_inv slots slots' key rec2 hscan
    exact ⟨i, hi, hset, fun j hj => by rw [hset, getD_set_ne _ _ _ _ _ hj]⟩
  · intro slots f2 rec2 m u d key hchk htok hscan
    exact runLoop_missStep f2 m u d hchk htok hscan

/-- Witness for C10 at a concrete one-slot state. -/
theorem C10_frame_witness :
    ∃ i, i < [wSlot].length ∧
      [wSlotAdv] = [wSlot].set i (advanceSlot ([wSlot].getD i dfltSlot) wRec2) ∧
      ∀ j, j ≠ i → [wSlotAdv].getD j dfltSlot = [wSlot].getD j dfltSlot :=
  C10_frame.1 ['@', 'a'] wRec2 [wSlot] [wSlotAdv] (by decide)
